import Mathlib

/-!
Verification of the request executor of lever-js.

The executor lives in `createEndpoint` (src/src/index.ts), its compiled form
(src/dist/index.js) and a newer compiled form (the unnamed build artifact,
`part_002`).  JavaScript strings are modelled as `List Char`; JS objects whose
keys matter are modelled as association lists in property-insertion order;
an `Option` field models presence or absence of an object key.
-/

namespace LeverJs

/-- JS runtime strings, modelled as lists of characters. -/
abbrev Str := List Char

/-- JS `String.prototype.replace` with a plain-string pattern, as used in step 1
of `createEndpoint`: replace the leftmost occurrence of `pat` by `rep`; when
`pat` does not occur, the string is returned unchanged.  The replacement values
the executor passes in are percent-encoded, so they never contain a dollar sign
and the special replacement-pattern syntax of `replace` never fires. -/
def replaceFirstL (pat rep : Str) : Str → Str
  | [] => if pat.isPrefixOf ([] : Str) then rep else []
  | c :: rest =>
    if pat.isPrefixOf (c :: rest) then rep ++ (c :: rest).drop pat.length
    else c :: replaceFirstL pat rep rest

/-- Whether `pat` occurs as a contiguous substring (used to state what
`replace` does when the pattern is absent). -/
def occursB (pat : Str) : Str → Bool
  | [] => pat.isPrefixOf ([] : Str)
  | c :: rest => pat.isPrefixOf (c :: rest) || occursB pat rest

/-- Uppercase hexadecimal digit, for percent-escapes. -/
def hexUpper (n : Nat) : Char :=
  if n < 10 then Char.ofNat (48 + n) else Char.ofNat (55 + n)

/-- UTF-8 bytes of a code point (as used by `encodeURIComponent` and by the
`URLSearchParams` serializer). -/
def utf8Bytes (n : Nat) : List Nat :=
  if n < 128 then [n]
  else if n < 2048 then [192 + n / 64, 128 + n % 64]
  else if n < 65536 then [224 + n / 4096, 128 + n / 64 % 64, 128 + n % 64]
  else [240 + n / 262144, 128 + n / 4096 % 64, 128 + n / 64 % 64, 128 + n % 64]

/-- A percent-escaped byte, `%XY` with uppercase hex digits. -/
def pctByte (b : Nat) : Str := [Char.ofNat 37, hexUpper (b / 16), hexUpper (b % 16)]

/-- The characters `encodeURIComponent` leaves unescaped:
ASCII letters, digits, and `- _ . ! ~ * ' ( )`. -/
def eucUnescaped (c : Char) : Bool :=
  c.isAlpha || c.isDigit || c == Char.ofNat 45 || c == Char.ofNat 95 ||
    c == Char.ofNat 46 || c == Char.ofNat 33 || c == Char.ofNat 126 ||
    c == Char.ofNat 42 || c == Char.ofNat 39 || c == Char.ofNat 40 ||
    c == Char.ofNat 41

/-- JS `encodeURIComponent` on a list of characters. -/
def encodeURIComponentL (s : Str) : Str :=
  s.flatMap fun c =>
    if eucUnescaped c then [c] else (utf8Bytes c.toNat).flatMap pctByte

/-- JS `encodeURIComponent`. -/
def encodeURIComponent (s : String) : String := ⟨encodeURIComponentL s.data⟩

/-- The characters the `application/x-www-form-urlencoded` serializer of
`URLSearchParams` keeps verbatim: ASCII letters, digits, and `* - . _`. -/
def fueKeep (c : Char) : Bool :=
  c.isAlpha || c.isDigit || c == Char.ofNat 42 || c == Char.ofNat 45 ||
    c == Char.ofNat 46 || c == Char.ofNat 95

/-- The `application/x-www-form-urlencoded` escape of one component
(space becomes `+`, other escaped characters become percent-escaped
UTF-8 bytes), as performed by `URLSearchParams.toString`. -/
def fueEncodeL (s : Str) : Str :=
  s.flatMap fun c =>
    if fueKeep c then [c]
    else if c == Char.ofNat 32 then [Char.ofNat 43]
    else (utf8Bytes c.toNat).flatMap pctByte

/-- String-level form-urlencoded escape. -/
def fueEncode (s : String) : String := ⟨fueEncodeL s.data⟩

/-- Join with `&`, as `URLSearchParams.toString` does between pairs. -/
def joinAmp : List String → String
  | [] => ""
  | [x] => x
  | x :: y :: xs => x ++ "&" ++ joinAmp (y :: xs)

/-- `new URLSearchParams(pairs).toString()`: serialize the pairs, in order, as
`key=value` joined by `&`, each component form-urlencoded. -/
def serializeSearchParams (l : List (String × String)) : String :=
  joinAmp (l.map fun kv => fueEncode kv.1 ++ "=" ++ fueEncode kv.2)

/-- Character of the standard base64 alphabet. -/
def b64Char (n : Nat) : Char :=
  if n < 26 then Char.ofNat (65 + n)
  else if n < 52 then Char.ofNat (97 + (n - 26))
  else if n < 62 then Char.ofNat (48 + (n - 52))
  else if n = 62 then Char.ofNat 43 else Char.ofNat 47

/-- Base64 encoding of a byte sequence (with `=` padding). -/
def b64encode : List Nat → Str
  | [] => []
  | [a] => [b64Char (a / 4), b64Char (a % 4 * 16), Char.ofNat 61, Char.ofNat 61]
  | [a, b] => [b64Char (a / 4), b64Char (a % 4 * 16 + b / 16),
      b64Char (b % 16 * 4), Char.ofNat 61]
  | a :: b :: c :: rest =>
    [b64Char (a / 4), b64Char (a % 4 * 16 + b / 16),
      b64Char (b % 16 * 4 + c / 64), b64Char (c % 64)] ++ b64encode rest

/-- JS `btoa`: base64 of the code points of the string (JS raises for code
points above 255; the executor applies it to API-key text). -/
def btoa (s : String) : String := ⟨b64encode (s.data.map Char.toNat)⟩

/-- Value of a base64 alphabet character. -/
def b64val (c : Char) : Nat :=
  if c == Char.ofNat 43 then 62
  else if c == Char.ofNat 47 then 63
  else if c.isDigit then c.toNat - 48 + 52
  else if 97 ≤ c.toNat then c.toNat - 97 + 26
  else c.toNat - 65

/-- Base64 decoding (standard alphabet, `=` padding). -/
def b64decode : Str → List Nat
  | a :: b :: c :: d :: rest =>
    if d == Char.ofNat 61 then
      if c == Char.ofNat 61 then [b64val a * 4 + b64val b / 16]
      else [b64val a * 4 + b64val b / 16, b64val b % 16 * 16 + b64val c / 4]
    else
      (b64val a * 4 + b64val b / 16) :: (b64val b % 16 * 16 + b64val c / 4) ::
        (b64val c % 4 * 64 + b64val d) :: b64decode rest
  | _ => []

/-- JS `atob`. -/
def atob (s : String) : String := ⟨(b64decode s.data).map Char.ofNat⟩

/-- JSON values, for request bodies and parsed responses. -/
inductive JVal where
  | null
  | bool (b : Bool)
  | num (n : Int)
  | str (s : String)
  | arr (elems : List JVal)
  | obj (fields : List (String × JVal))

/-- Lowercase hexadecimal digit (for JSON control-character escapes). -/
def hexLower (n : Nat) : Char :=
  if n < 10 then Char.ofNat (48 + n) else Char.ofNat (87 + n)

/-- JSON string escaping of one character, as `JSON.stringify` performs it. -/
def escJsonChar (c : Char) : Str :=
  if c == Char.ofNat 34 then [Char.ofNat 92, Char.ofNat 34]
  else if c == Char.ofNat 92 then [Char.ofNat 92, Char.ofNat 92]
  else if c == Char.ofNat 8 then [Char.ofNat 92, Char.ofNat 98]
  else if c == Char.ofNat 9 then [Char.ofNat 92, Char.ofNat 116]
  else if c == Char.ofNat 10 then [Char.ofNat 92, Char.ofNat 110]
  else if c == Char.ofNat 12 then [Char.ofNat 92, Char.ofNat 102]
  else if c == Char.ofNat 13 then [Char.ofNat 92, Char.ofNat 114]
  else if c.toNat < 32 then
    [Char.ofNat 92, Char.ofNat 117, Char.ofNat 48, Char.ofNat 48,
      hexLower (c.toNat / 16), hexLower (c.toNat % 16)]
  else [c]

/-- A JSON-quoted string. -/
def jsonQuote (s : String) : String :=
  ⟨[Char.ofNat 34] ++ s.data.flatMap escJsonChar ++ [Char.ofNat 34]⟩

/-- Join with `,` (helper of `jsonStringify`). -/
def joinComma : List String → String
  | [] => ""
  | [x] => x
  | x :: y :: xs => x ++ "," ++ joinComma (y :: xs)

mutual

/-- `JSON.stringify` on a JSON value (no spacing, as in the default). -/
def jsonStringify : JVal → String
  | .null => "null"
  | .bool true => "true"
  | .bool false => "false"
  | .num n => toString n
  | .str s => jsonQuote s
  | .arr es => "[" ++ joinComma (jsonStringifyList es) ++ "]"
  | .obj fs => "\x7b" ++ joinComma (jsonStringifyFields fs) ++ "\x7d"

/-- Serialized array elements. -/
def jsonStringifyList : List JVal → List String
  | [] => []
  | v :: vs => jsonStringify v :: jsonStringifyList vs

/-- Serialized object fields. -/
def jsonStringifyFields : List (String × JVal) → List String
  | [] => []
  | (k, v) :: fs => (jsonQuote k ++ ":" ++ jsonStringify v) :: jsonStringifyFields fs

end

/-- Primitive JS values accepted in `payload.query`. -/
inductive Prim where
  | str (s : String)
  | num (n : Int)
  | bool (b : Bool)

/-- JS `String(v)` on a query primitive. -/
def Prim.jsString : Prim → String
  | .str s => s
  | .num n => toString n
  | .bool true => "true"
  | .bool false => "false"

/-- The fixed API root (`ROOT` in the source). -/
def ROOT : String := "https://api.lever.co/v1"

/-- An endpoint descriptor: HTTP method and path template. -/
structure EndpointConfig where
  method : String
  path : String
deriving DecidableEq

/-- The per-call payload `{ params, query?, body? }`; `none` models an absent
(or, for query entries, `null`/`undefined`-valued) field. -/
structure CallData where
  params : List (String × String)
  query : Option (List (String × Option Prim))
  body : Option JVal

/-- The caller-supplied `init` object (fetch `RequestInit` overrides): each
field is `none` when the corresponding object key is absent.  The TypeScript
type omits `body` and `method`, but the runtime spread `...init` honors them
when present, so they are part of the runtime model. -/
structure FetchInit where
  headers : Option (List (String × String))
  method : Option String
  body : Option String

/-- The default `init = {}`. -/
def initEmpty : FetchInit := ⟨none, none, none⟩

/-- The argument record the executor hands to `fetch`. -/
structure FetchRequest where
  url : String
  method : String
  headers : List (String × String)
  body : Option String
deriving DecidableEq

/-- JS object spread `{...a, ...b}` on string records with distinct keys:
keys of `a` keep their position, colliding keys take the value from `b`,
fresh keys of `b` are appended. -/
def mergeRecord (a b : List (String × String)) : List (String × String) :=
  (a.map fun kv => (kv.1, (b.lookup kv.1).getD kv.2)) ++
    b.filter fun kv => (a.lookup kv.1).isNone

/-- Step 1 of the executor at the character-list level: for each
`(key, val)` pair of `Object.entries(params)`, in order, replace the first
occurrence of the literal token `:key` by `encodeURIComponent(val)`. -/
def interpolateL (t : Str) (ps : List (Str × Str)) : Str :=
  ps.foldl (fun acc p => replaceFirstL (Char.ofNat 58 :: p.1) (encodeURIComponentL p.2) acc) t

/-- Step 1 of the executor at the string level. -/
def interpolate (path : String) (params : List (String × String)) : String :=
  ⟨interpolateL path.data (params.map fun p => (p.1.data, p.2.data))⟩

/-- `Object.entries(query).filter(([, v]) => v != null).map(([k, v]) => [k, String(v)])`. -/
def queryEntries (q : List (String × Option Prim)) : List (String × String) :=
  q.filterMap fun kv => kv.2.map fun v => (kv.1, v.jsString)

/-- A JS exception surfaced while the executor builds the request. -/
inductive JsError where
  | entriesOfUndefined
deriving DecidableEq

/-- Step 3 of the executor: `Authorization` always, `Content-Type` for
non-GET methods. -/
def defaultHeadersFor (apiKey method : String) : List (String × String) :=
  [("Authorization", "Basic " ++ btoa (apiKey ++ ":"))] ++
    (if method = "GET" then [] else [("Content-Type", "application/json")])

/-- The request computed by the `call` closure of `createEndpoint` in
src/src/index.ts, up to the `fetch` call.  `Object.entries(query as any)`
raises a `TypeError` when the caller omitted `query`; the final spread
`...init` re-assigns `headers` (and `method`/`body` if present in `init`)
after the computed values. -/
def callSrcRequest (config : EndpointConfig) (apiKey : String) (data : CallData)
    (init : FetchInit) : Except JsError FetchRequest :=
  let url := interpolate config.path data.params
  match data.query with
  | none => .error .entriesOfUndefined
  | some q =>
    let qs := serializeSearchParams (queryEntries q)
    let fullUrl := ROOT ++ url ++ (if qs = "" then "" else "?" ++ qs)
    let defaultHeaders := defaultHeadersFor apiKey config.method
    let mergedHeaders := mergeRecord defaultHeaders (init.headers.getD [])
    .ok
      { url := fullUrl
        method := init.method.getD config.method
        headers := init.headers.getD mergedHeaders
        body := init.body.orElse fun _ =>
          if config.method = "GET" then none else data.body.map jsonStringify }

/-- The HTTP response as the executor observes it; `jsonBody` carries the
outcome of `res.json()` abstractly (the platform parses the body text). -/
structure FetchResponse where
  status : Nat
  statusText : String
  jsonBody : Except String JVal

/-- `Response.ok` of the fetch API: status in the inclusive range 200–299. -/
def resOk (r : FetchResponse) : Bool :=
  decide (200 ≤ r.status) && decide (r.status ≤ 299)

/-- What a call resolves to after the transport answered. -/
inductive CallOutcome where
  | success (v : JVal)
  | failure (errMessage : String)
  | jsonError (e : String)

/-- Response interpretation of src/src/index.ts: throw
`Error('HTTP <status>: <statusText>')` on a non-ok status, otherwise resolve
with the JSON-parsed body. -/
def callSrcOutcome (config : EndpointConfig) (fullUrl : String)
    (res : FetchResponse) : CallOutcome :=
  if resOk res then
    match res.jsonBody with
    | .ok v => .success v
    | .error e => .jsonError e
  else .failure ("HTTP " ++ toString res.status ++ ": " ++ res.statusText)

/-- The request computed by `createEndpoint` in src/dist/index.js (the compiled
form of src/src/index.ts), up to the `fetch` call. -/
def callDistRequest (config : EndpointConfig) (apiKey : String) (data : CallData)
    (init : FetchInit) : Except JsError FetchRequest :=
  let url := interpolate config.path data.params
  match data.query with
  | none => .error .entriesOfUndefined
  | some q =>
    let qs := serializeSearchParams (queryEntries q)
    let fullUrl := ROOT ++ url ++ (if qs = "" then "" else "?" ++ qs)
    let defaultHeaders := defaultHeadersFor apiKey config.method
    let mergedHeaders := mergeRecord defaultHeaders (init.headers.getD [])
    .ok
      { url := fullUrl
        method := init.method.getD config.method
        headers := init.headers.getD mergedHeaders
        body := init.body.orElse fun _ =>
          if config.method = "GET" then none else data.body.map jsonStringify }

/-- Response interpretation of src/dist/index.js. -/
def callDistOutcome (config : EndpointConfig) (fullUrl : String)
    (res : FetchResponse) : CallOutcome :=
  if resOk res then
    match res.jsonBody with
    | .ok v => .success v
    | .error e => .jsonError e
  else .failure ("HTTP " ++ toString res.status ++ ": " ++ res.statusText)

/-- The request computed by `createEndpoint` in the newer compiled build
(src/unnamed/part_002), up to the `fetch` call: `query` and `body` are
guarded (`'query' in data ? (data.query ?? []) : []`,
`'body' in data`), so an absent `query` serializes to the empty string
instead of raising. -/
def callPart002Request (config : EndpointConfig) (apiKey : String)
    (data : CallData) (init : FetchInit) : FetchRequest :=
  let url := interpolate config.path data.params
  let qs := serializeSearchParams (queryEntries (data.query.getD []))
  let fullUrl := ROOT ++ url ++ (if qs = "" then "" else "?" ++ qs)
  let defaultHeaders := defaultHeadersFor apiKey config.method
  let mergedHeaders := mergeRecord defaultHeaders (init.headers.getD [])
  { url := fullUrl
    method := init.method.getD config.method
    headers := init.headers.getD mergedHeaders
    body := init.body.orElse fun _ =>
      if config.method = "GET" then none else data.body.map jsonStringify }

/-- Response interpretation of the newer compiled build (src/unnamed/part_002):
the error message additionally names the method and the full URL. -/
def callPart002Outcome (config : EndpointConfig) (fullUrl : String)
    (res : FetchResponse) : CallOutcome :=
  if resOk res then
    match res.jsonBody with
    | .ok v => .success v
    | .error e => .jsonError e
  else
    .failure (config.method ++ " " ++ fullUrl ++ " HTTP " ++
      toString res.status ++ ": " ++ res.statusText)

/-- The `addOpportunityTags` endpoint descriptor. -/
def addOpportunityTags : EndpointConfig :=
  { method := "POST", path := "/opportunities/:opportunity/addTags" }

/-- The `getTags` endpoint descriptor. -/
def getTags : EndpointConfig := { method := "GET", path := "/tags" }

/-- Split at `/` characters (an executable segmentation of a path). -/
def splitSlashL : Str → List Str
  | [] => [[]]
  | c :: rest =>
    if c == Char.ofNat 47 then [] :: splitSlashL rest
    else
      match splitSlashL rest with
      | [] => [[c]]
      | s :: ss => (c :: s) :: ss

/-- Modelled from the spec: the placeholders of a path template, "a segment
prefixed with `:`" (the source has no placeholder-extraction function; this
definition exists only to state claims that quantify over placeholders). -/
def specPlaceholders (path : String) : List String :=
  (splitSlashL path.data).filterMap fun seg =>
    match seg with
    | c :: rest => if c == Char.ofNat 58 then some ⟨rest⟩ else none
    | [] => none

/-- Split at the first colon (how HTTP Basic credentials are read back). -/
def splitFirstColonL : Str → Str × Str
  | [] => ([], [])
  | c :: rest =>
    if c == Char.ofNat 58 then ([], rest)
    else
      let r := splitFirstColonL rest
      (c :: r.1, r.2)

/-- String-level split at the first colon. -/
def splitFirstColon (s : String) : String × String :=
  (⟨(splitFirstColonL s.data).1⟩, ⟨(splitFirstColonL s.data).2⟩)

/-- One invocation of the src executor, state-passing style over the
descriptor: the source never assigns to `config`, so the descriptor component
is returned as read. -/
def callSrcStep (config : EndpointConfig)
    (a : String × CallData × FetchInit) :
    Except JsError FetchRequest × EndpointConfig :=
  (callSrcRequest config a.1 a.2.1 a.2.2, config)

/-- A sequence of invocations against one descriptor, threading the
descriptor through. -/
def runCallsSrc (config : EndpointConfig) :
    List (String × CallData × FetchInit) →
    List (Except JsError FetchRequest) × EndpointConfig
  | [] => ([], config)
  | a :: rest =>
    let s := callSrcStep config a
    let r := runCallsSrc s.2 rest
    (s.1 :: r.1, r.2)

/-- Decomposition of a template into colon-free filler text interleaved with
placeholder tokens, in textual order (the shape under which sequential
first-occurrence replacement is well behaved). -/
inductive Decomp : List Str → Str → Prop where
  | nil : ∀ t : Str, Char.ofNat 58 ∉ t → Decomp [] t
  | cons : ∀ (f p : Str) (ps : List Str) (rest : Str),
      Char.ofNat 58 ∉ f → Decomp ps rest → Decomp (p :: ps) (f ++ p ++ rest)

/-! ### General lemmas about occurrence and replacement -/

/-- A pattern is a prefix of itself followed by anything. -/
theorem isPrefixOf_append_self (q xs : Str) : q.isPrefixOf (q ++ xs) = true := by
  induction q with
  | nil => simp [List.isPrefixOf]
  | cons c cs ih => simpa [List.isPrefixOf] using ih

/-- Unfolding `occursB` on a cons cell. -/
theorem occursB_cons (q : Str) (c : Char) (rest : Str) :
    occursB q (c :: rest) = (q.isPrefixOf (c :: rest) || occursB q rest) := rfl

/-- A pattern occurs in any string that exhibits it. -/
theorem occursB_append_mid (q a b : Str) : occursB q (a ++ (q ++ b)) = true := by
  induction a with
  | nil =>
    cases q with
    | nil => cases b <;> simp [occursB, List.isPrefixOf]
    | cons c cs => simp [occursB_cons, isPrefixOf_append_self]
  | cons c cs ih => simp [occursB_cons, ih]

/-- Occurrence is stable under prepending text. -/
theorem occursB_append_left (q a b : Str) (h : occursB q b = true) :
    occursB q (a ++ b) = true := by
  induction a with
  | nil => simp [h]
  | cons c cs ih => simp [occursB_cons, ih]

/-- `replace` with an absent pattern returns the string unchanged. -/
theorem replaceFirstL_of_not_occurs (pat rep s : Str) (h : occursB pat s = false) :
    replaceFirstL pat rep s = s := by
  induction s with
  | nil =>
    simp only [occursB] at h
    simp [replaceFirstL, h]
  | cons c rest ih =>
    rw [occursB_cons, Bool.or_eq_false_iff] at h
    simp [replaceFirstL, h.1, ih h.2]

/-- Unfolding equation of `interpolateL`: the params are processed in order,
each by a first-occurrence replacement of its `:name` token with the
percent-encoded value. -/
theorem interpolateL_cons (t : Str) (p : Str × Str) (ps : List (Str × Str)) :
    interpolateL t (p :: ps) =
      interpolateL (replaceFirstL (Char.ofNat 58 :: p.1) (encodeURIComponentL p.2) t) ps := rfl

/-- Interpolation over params whose tokens are all absent is the identity. -/
theorem interpolateL_of_not_occurs (t : Str) (ps : List (Str × Str))
    (h : ∀ p ∈ ps, occursB (Char.ofNat 58 :: p.1) t = false) : interpolateL t ps = t := by
  induction ps with
  | nil => rfl
  | cons p rest ih =>
    rw [interpolateL_cons, replaceFirstL_of_not_occurs _ _ _ (h p (by simp))]
    exact ih fun p hp => h p (by simp [hp])

/-- A colon-led pattern cannot match at a non-colon character. -/
theorem colonTok_isPrefixOf_false (n : Str) (c : Char) (xs : Str)
    (h : c ≠ Char.ofNat 58) : (Char.ofNat 58 :: n).isPrefixOf (c :: xs) = false := by
  simp only [List.isPrefixOf, Bool.and_eq_false_iff]
  left
  simpa [beq_iff_eq] using fun hc => h hc.symm

/-- Unfolding `replaceFirstL` when the head position does not match. -/
theorem replaceFirstL_cons_of_no_match (pat rep : Str) (c : Char) (xs : Str)
    (h : pat.isPrefixOf (c :: xs) = false) :
    replaceFirstL pat rep (c :: xs) = c :: replaceFirstL pat rep xs := by
  simp [replaceFirstL, h]

/-- `replace` of a colon-led token scans past colon-free text. -/
theorem replaceFirstL_skip_filler (n rep f xs : Str) (hf : Char.ofNat 58 ∉ f) :
    replaceFirstL (Char.ofNat 58 :: n) rep (f ++ xs) =
      f ++ replaceFirstL (Char.ofNat 58 :: n) rep xs := by
  induction f with
  | nil => rfl
  | cons c cs ih =>
    have hc : c ≠ Char.ofNat 58 := fun hc => hf (by simp [hc])
    rw [List.cons_append,
      replaceFirstL_cons_of_no_match _ _ _ _ (colonTok_isPrefixOf_false _ _ _ hc),
      ih fun h => hf (List.mem_cons_of_mem _ h)]
    rfl

/-- `replace` fires at an exhibited occurrence of the pattern. -/
theorem replaceFirstL_here (q rep xs : Str) :
    replaceFirstL q rep (q ++ xs) = rep ++ xs := by
  cases q with
  | nil => cases xs <;> simp [replaceFirstL, List.isPrefixOf]
  | cons c cs =>
    rw [List.cons_append]
    have hp : (c :: cs).isPrefixOf (c :: (cs ++ xs)) = true := by
      have := isPrefixOf_append_self (c :: cs) xs
      simpa using this
    have hd : (c :: (cs ++ xs)).drop ((c :: cs).length) = xs := by
      simpa using List.drop_left cs xs
    simp [replaceFirstL, hp, hd]

/-- A pattern that neither extends nor is extended by `p` cannot match where
`p` sits. -/
theorem isPrefixOf_false_of_no_pre (p q xs : Str)
    (h1 : ¬ q <+: p) (h2 : ¬ p <+: q) : q.isPrefixOf (p ++ xs) = false := by
  rw [Bool.eq_false_iff]
  intro hq
  rw [List.isPrefixOf_iff_prefix] at hq
  rcases List.prefix_or_prefix_of_prefix hq (List.prefix_append p xs) with h | h
  · exact h1 h
  · exact h2 h

/-- `replace` of one token scans past a different token (neither a prefix of
the other). -/
theorem replaceFirstL_skip_tok (m n rep xs : Str) (hm : Char.ofNat 58 ∉ m)
    (h1 : ¬ (Char.ofNat 58 :: n) <+: (Char.ofNat 58 :: m))
    (h2 : ¬ (Char.ofNat 58 :: m) <+: (Char.ofNat 58 :: n)) :
    replaceFirstL (Char.ofNat 58 :: n) rep ((Char.ofNat 58 :: m) ++ xs) =
      (Char.ofNat 58 :: m) ++ replaceFirstL (Char.ofNat 58 :: n) rep xs := by
  rw [List.cons_append,
    replaceFirstL_cons_of_no_match _ _ _ _
      (by
        have := isPrefixOf_false_of_no_pre (Char.ofNat 58 :: m) (Char.ofNat 58 :: n) xs h1 h2
        simpa using this),
    replaceFirstL_skip_filler _ _ _ _ hm]
  rfl

/-! ### Decomposition machinery for path interpolation -/

/-- Colon-freeness of an appended string, from its parts. -/
theorem no_colon_append {a b : Str} (ha : Char.ofNat 58 ∉ a)
    (hb : Char.ofNat 58 ∉ b) : Char.ofNat 58 ∉ a ++ b := by
  intro hmem
  rcases List.mem_append.mp hmem with h | h
  · exact ha h
  · exact hb h

/-- A decomposition is stable under prepending colon-free text. -/
theorem Decomp.prepend {ps : List Str} {r : Str} (g : Str)
    (hg : Char.ofNat 58 ∉ g) (h : Decomp ps r) : Decomp ps (g ++ r) := by
  cases h with
  | nil t ht => exact Decomp.nil _ (no_colon_append hg ht)
  | cons f p ps rest hf hrest =>
    have hassoc : g ++ (f ++ p ++ rest) = (g ++ f) ++ p ++ rest := by simp
    rw [hassoc]
    exact Decomp.cons _ _ _ _ (no_colon_append hg hf) hrest

/-- Every listed pattern occurs in a decomposed string. -/
theorem Decomp.occurs {pats : List Str} {s : Str} (h : Decomp pats s)
    {p : Str} (hp : p ∈ pats) : occursB p s = true := by
  induction h with
  | nil t ht => cases hp
  | cons f q ps rest hf hrest ih =>
    rcases List.mem_cons.mp hp with rfl | hp2
    · rw [List.append_assoc]
      exact occursB_append_mid _ _ _
    · rw [List.append_assoc]
      exact occursB_append_left _ _ _ (occursB_append_left _ _ _ (ih hp2))

/-- An empty decomposition list means the string is colon-free. -/
theorem Decomp.no_colon {s : Str} (h : Decomp [] s) : Char.ofNat 58 ∉ s := by
  cases h with
  | nil t ht => exact ht

/-- Replacing one listed token by colon-free text preserves the
decomposition, with that token spent: the tokens are pairwise
non-overlapping (no token a prefix of another), so the leftmost occurrence of
the token is exactly its slot in the decomposition. -/
theorem Decomp.replace {pats : List Str} {t q rep : Str}
    (hd : Decomp pats t)
    (hpat : ∀ p ∈ pats, ∃ m, p = Char.ofNat 58 :: m ∧ Char.ofNat 58 ∉ m)
    (hpw : pats.Pairwise fun a b => ¬ a <+: b ∧ ¬ b <+: a)
    (hq : q ∈ pats) (hrep : Char.ofNat 58 ∉ rep) :
    Decomp (pats.erase q) (replaceFirstL q rep t) := by
  revert hpat hpw hq
  induction hd with
  | nil t ht =>
    intro _ _ hq
    exact absurd hq (List.not_mem_nil q)
  | cons f p ps rest hf hrest ih =>
    intro hpat hpw hq
    obtain ⟨m, hpm, hm⟩ := hpat p (List.mem_cons_self p ps)
    by_cases hqp : q = p
    · subst hqp
      rw [List.erase_cons_head, List.append_assoc, hpm,
        replaceFirstL_skip_filler _ _ _ _ hf, replaceFirstL_here]
      exact (hrest.prepend rep hrep).prepend f hf
    · have hq2 : q ∈ ps := (List.mem_cons.mp hq).resolve_left hqp
      obtain ⟨n, hqn, hn⟩ := hpat q (List.mem_cons_of_mem _ hq2)
      have hrel := (List.pairwise_cons.mp hpw).1 q hq2
      subst hqn
      subst hpm
      have hne : ¬((Char.ofNat 58 :: m) == (Char.ofNat 58 :: n)) := by
        simp only [beq_iff_eq]
        intro h
        exact hqp h.symm
      have herase : ((Char.ofNat 58 :: m) :: ps).erase (Char.ofNat 58 :: n) =
          (Char.ofNat 58 :: m) :: ps.erase (Char.ofNat 58 :: n) :=
        List.erase_cons_tail hne
      rw [herase, List.append_assoc, replaceFirstL_skip_filler _ _ _ _ hf,
        replaceFirstL_skip_tok _ _ _ _ hm hrel.2 hrel.1]
      have hrec := ih (fun p2 hp2 => hpat p2 (List.mem_cons_of_mem _ hp2))
        (List.pairwise_cons.mp hpw).2 hq2
      have hcons := Decomp.cons f (Char.ofNat 58 :: m) (ps.erase (Char.ofNat 58 :: n))
        (replaceFirstL (Char.ofNat 58 :: n) rep rest) hf hrec
      simpa using hcons

/-- Code points of characters are below 0x110000. -/
theorem char_toNat_lt (c : Char) : c.toNat < 1114112 := by
  rcases c.valid with h | h
  · exact Nat.lt_trans h (by norm_num)
  · exact h.2

/-- UTF-8 bytes of a valid code point are bytes. -/
theorem utf8Bytes_lt (n : Nat) (hn : n < 1114112) : ∀ b ∈ utf8Bytes n, b < 256 := by
  unfold utf8Bytes
  split_ifs with h1 h2 h3 <;> intro b hb <;> simp only [List.mem_cons,
    List.mem_singleton, List.not_mem_nil, or_false] at hb
  · omega
  · rcases hb with rfl | rfl <;> omega
  · rcases hb with rfl | rfl | rfl <;> omega
  · rcases hb with rfl | rfl | rfl | rfl <;> omega

/-- Hexadecimal digits are never a colon. -/
theorem hexUpper_ne_colon (k : Nat) (hk : k < 16) : hexUpper k ≠ Char.ofNat 58 := by
  interval_cases k <;> decide

/-- Percent-escapes contain no colon. -/
theorem pctByte_no_colon (b : Nat) (hb : b < 256) : Char.ofNat 58 ∉ pctByte b := by
  intro hmem
  simp only [pctByte, List.mem_cons, List.not_mem_nil, or_false] at hmem
  rcases hmem with h | h | h
  · exact absurd h (by decide)
  · exact hexUpper_ne_colon (b / 16) (by omega) h.symm
  · exact hexUpper_ne_colon (b % 16) (by omega) h.symm

/-- `encodeURIComponent` output contains no colon: the colon is not in the
unescaped set, and escapes consist of `%` and hex digits. -/
theorem encodeURIComponentL_no_colon (s : Str) :
    Char.ofNat 58 ∉ encodeURIComponentL s := by
  intro hmem
  simp only [encodeURIComponentL, List.mem_flatMap] at hmem
  obtain ⟨c, hc, hin⟩ := hmem
  by_cases h : eucUnescaped c
  · rw [if_pos h] at hin
    simp only [List.mem_singleton] at hin
    rw [← hin] at h
    exact absurd h (by decide)
  · rw [if_neg h] at hin
    simp only [List.mem_flatMap] at hin
    obtain ⟨b, hb, hbin⟩ := hin
    exact pctByte_no_colon b (utf8Bytes_lt c.toNat (char_toNat_lt c) b hb) hbin

/-- A list is a permutation of any member consed onto its erasure. -/
theorem perm_cons_erase_str {a : Str} {l : List Str} (h : a ∈ l) :
    l.Perm (a :: l.erase a) := by
  induction l with
  | nil => cases h
  | cons b bs ih =>
    by_cases hb : b = a
    · subst hb
      rw [List.erase_cons_head]
    · have h1 : a ∈ bs := (List.mem_cons.mp h).resolve_left fun he => hb he.symm
      have hne : ¬(b == a) := by
        simp only [beq_iff_eq]
        exact hb
      rw [List.erase_cons_tail hne]
      exact ((ih h1).cons b).trans (List.Perm.swap a b _)

/-- Interpolation consumes the tokens of the processed params from a
decomposition and leaves a decomposition over the remaining tokens. -/
theorem interp_decomp {ps : List (Str × Str)} {t : Str} {pats leftover : List Str}
    (hperm : pats.Perm ((ps.map fun p => Char.ofNat 58 :: p.1) ++ leftover))
    (hd : Decomp pats t)
    (hnames : ∀ p ∈ ps, Char.ofNat 58 ∉ p.1)
    (hleft : ∀ p ∈ leftover, ∃ m, p = Char.ofNat 58 :: m ∧ Char.ofNat 58 ∉ m)
    (hpw : pats.Pairwise fun a b => ¬ a <+: b ∧ ¬ b <+: a) :
    ∃ l2 : List Str, l2.Perm leftover ∧ Decomp l2 (interpolateL t ps) := by
  induction ps generalizing pats t with
  | nil => exact ⟨pats, by simpa using hperm, hd⟩
  | cons p ps2 ih =>
    simp only [List.map_cons, List.cons_append] at hperm
    have hshape : ∀ r ∈ pats, ∃ m, r = Char.ofNat 58 :: m ∧ Char.ofNat 58 ∉ m := by
      intro r hr
      have hr2 := hperm.mem_iff.mp hr
      rcases List.mem_cons.mp hr2 with rfl | h2
      · exact ⟨p.1, rfl, hnames p (List.mem_cons_self p ps2)⟩
      rcases List.mem_append.mp h2 with h | h
      · obtain ⟨x, hx, hxe⟩ := List.mem_map.mp h
        exact ⟨x.1, hxe.symm, hnames x (List.mem_cons_of_mem _ hx)⟩
      · exact hleft r h
    have hqmem : (Char.ofNat 58 :: p.1) ∈ pats := hperm.mem_iff.mpr (by simp)
    have hnew := hd.replace hshape hpw hqmem (encodeURIComponentL_no_colon p.2)
    have hperm2 : (pats.erase (Char.ofNat 58 :: p.1)).Perm
        ((ps2.map fun x => Char.ofNat 58 :: x.1) ++ leftover) := by
      have h2 := perm_cons_erase_str hqmem
      exact (h2.symm.trans hperm).cons_inv
    rw [interpolateL_cons]
    exact ih hperm2 hnew (fun x hx => hnames x (List.mem_cons_of_mem _ hx))
      (List.Pairwise.sublist (List.erase_sublist _ _) hpw)

/-! ### Claim C4: path interpolation -/

/-- C4, counterexample: the claim as stated fails.  For the template
`/:idx/:id` with params `id=A`, `idx=B` — whose keys exactly match the
placeholders — the replacement of `:id` fires inside the `:idx` placeholder
(the first occurrence of the substring), yielding `/Ax/:id`, in which the
`:`-prefixed token `:id` remains. -/
theorem c4_interpolation_counterexample :
    specPlaceholders "/:idx/:id" = ["idx", "id"] ∧
    (["id", "idx"] : List String).Perm (specPlaceholders "/:idx/:id") ∧
    interpolate "/:idx/:id" [("id", "A"), ("idx", "B")] = "/Ax/:id" ∧
    occursB (Char.ofNat 58 :: "id".data) ("/Ax/:id".data) = true := by
  refine ⟨by decide, by decide, by decide, by decide⟩

/-- C4 (amended): (1) the params are processed in order, each replacing the
first occurrence of the literal token `:name` in the current path by the
percent-encoded value; (2) `replace` with an absent pattern is the identity,
so an extra param with no occurrence of its token is ignored without error;
(3) params none of whose tokens occur leave the template unchanged; (4) when
the template decomposes into colon-free text interleaved with the param
tokens and further placeholder tokens, the params' keys are colon-free, and
no token is a prefix of another, every placeholder token not matched by a
param still occurs literally in the result; and (5) when the params' keys
exactly match the placeholder tokens of such a decomposition (each exactly
once), no colon — hence no `:`-prefixed token — remains in the emitted path. -/
theorem c4_interpolation_amended :
    (∀ (t : Str) (p : Str × Str) (ps : List (Str × Str)),
        interpolateL t (p :: ps) =
          interpolateL (replaceFirstL (Char.ofNat 58 :: p.1) (encodeURIComponentL p.2) t) ps) ∧
    (∀ (pat rep s : Str), occursB pat s = false → replaceFirstL pat rep s = s) ∧
    (∀ (t : Str) (ps : List (Str × Str)),
        (∀ p ∈ ps, occursB (Char.ofNat 58 :: p.1) t = false) → interpolateL t ps = t) ∧
    (∀ (t : Str) (ps : List (Str × Str)) (pats leftover : List Str),
        pats.Perm ((ps.map fun p => Char.ofNat 58 :: p.1) ++ leftover) →
        Decomp pats t →
        (∀ p ∈ ps, Char.ofNat 58 ∉ p.1) →
        (∀ p ∈ leftover, ∃ m, p = Char.ofNat 58 :: m ∧ Char.ofNat 58 ∉ m) →
        pats.Pairwise (fun a b => ¬ a <+: b ∧ ¬ b <+: a) →
        ∀ p ∈ leftover, occursB p (interpolateL t ps) = true) ∧
    (∀ (t : Str) (ps : List (Str × Str)) (pats : List Str),
        pats.Perm (ps.map fun p => Char.ofNat 58 :: p.1) →
        Decomp pats t →
        (∀ p ∈ ps, Char.ofNat 58 ∉ p.1) →
        pats.Pairwise (fun a b => ¬ a <+: b ∧ ¬ b <+: a) →
        Char.ofNat 58 ∉ interpolateL t ps) := by
  refine ⟨fun t p ps => interpolateL_cons t p ps, replaceFirstL_of_not_occurs,
    interpolateL_of_not_occurs, ?_, ?_⟩
  · intro t ps pats leftover hperm hd hnames hleft hpw p hp
    obtain ⟨l2, hl2, hdec⟩ := interp_decomp hperm hd hnames hleft hpw
    exact hdec.occurs (hl2.mem_iff.mpr hp)
  · intro t ps pats hperm hd hnames hpw
    obtain ⟨l2, hl2, hdec⟩ :=
      @interp_decomp ps t pats [] (by simpa using hperm) hd hnames
        (by simp) hpw
    rw [List.Perm.eq_nil hl2] at hdec
    exact hdec.no_colon

/-- C4, witness for the amended theorem: the template `/u/:x/:y` with params
`x=1`, `y=2` interpolates to a path with no colon left. -/
theorem c4_interpolation_witness :
    Char.ofNat 58 ∉ interpolateL ("/u/:x/:y".data)
      [("x".data, "1".data), ("y".data, "2".data)] := by
  have hdec : Decomp [Char.ofNat 58 :: "x".data, Char.ofNat 58 :: "y".data]
      ("/u/:x/:y".data) := by
    have h0 : Decomp [] ([] : Str) := Decomp.nil [] (by decide)
    have h1 := Decomp.cons ("/".data) (Char.ofNat 58 :: "y".data) [] [] (by decide) h0
    have h2 := Decomp.cons ("/u/".data) (Char.ofNat 58 :: "x".data) _ _ (by decide) h1
    exact (by decide : ("/u/".data ++ (Char.ofNat 58 :: "x".data) ++
      ("/".data ++ (Char.ofNat 58 :: "y".data) ++ [])) = "/u/:x/:y".data) ▸ h2
  exact c4_interpolation_amended.2.2.2.2 ("/u/:x/:y".data)
    [("x".data, "1".data), ("y".data, "2".data)]
    [Char.ofNat 58 :: "x".data, Char.ofNat 58 :: "y".data]
    (by decide) hdec (by decide)
    (by decide)

/-! ### Claim C2: header merging -/

/-- C2: the claim fails on the code.  The executor computes
`mergedHeaders = {...defaultHeaders, ...init.headers}` — which would keep the
non-colliding `Authorization` default, as the second conjunct shows — but the
trailing spread `...init` in the `fetch` options then re-assigns `headers` to
`init.headers` verbatim, so the issued request carries only the
caller-supplied headers and the non-colliding defaults are lost. -/
theorem c2_header_merge_clobbered :
    (callSrcRequest getTags "secret" ⟨[], some [], none⟩
        ⟨some [("X-Trace", "1")], none, none⟩).map (fun r => r.headers) =
      .ok [("X-Trace", "1")] ∧
    mergeRecord (defaultHeadersFor "secret" "GET") [("X-Trace", "1")] =
      [("Authorization", "Basic " ++ btoa ("secret" ++ ":")), ("X-Trace", "1")] ∧
    (callSrcRequest getTags "secret" ⟨[], some [], none⟩
        ⟨some [("X-Trace", "1")], none, none⟩).map
        (fun r => r.headers.lookup "Authorization") = .ok none :=
  ⟨rfl, rfl, rfl⟩

/-! ### Claim C3: absent query -/

/-- C3: the claim fails on the TS source and its dist build: with `query`
absent, `Object.entries(query)` raises a TypeError before transmission.  The
newer build guards the access and behaves as claimed: empty query string and
no `?` (63) in the URL. -/
theorem c3_absent_query :
    callSrcRequest getTags "k" ⟨[], none, none⟩ initEmpty = .error .entriesOfUndefined ∧
    callDistRequest getTags "k" ⟨[], none, none⟩ initEmpty = .error .entriesOfUndefined ∧
    (callPart002Request getTags "k" ⟨[], none, none⟩ initEmpty).url = ROOT ++ "/tags" ∧
    serializeSearchParams (queryEntries ((none : Option (List (String × Option Prim))).getD [])) = "" ∧
    Char.ofNat 63 ∉ (callPart002Request getTags "k" ⟨[], none, none⟩ initEmpty).url.data :=
  ⟨rfl, rfl, rfl, rfl, by decide⟩

/-! ### Claim C6: the addTags scenario -/

/-- C6: under the newer build the scenario issues exactly the claimed request
(URL root + `/opportunities/op1/addTags`, JSON body, `Content-Type:
application/json`); under the TS source executor the very same call raises a
TypeError (absent `query`) before any request is issued. -/
theorem c6_addTags_scenario :
    callPart002Request addOpportunityTags "key"
        ⟨[("opportunity", "op1")], none,
          some (.obj [("tags", .arr [.str "a", .str "b"])])⟩ initEmpty =
      { url := ROOT ++ "/opportunities/op1/addTags"
        method := "POST"
        headers := [("Authorization", "Basic " ++ btoa ("key" ++ ":")),
          ("Content-Type", "application/json")]
        body := some "\x7b\"tags\":[\"a\",\"b\"]\x7d" } ∧
    callSrcRequest addOpportunityTags "key"
        ⟨[("opportunity", "op1")], none,
          some (.obj [("tags", .arr [.str "a", .str "b"])])⟩ initEmpty =
      .error .entriesOfUndefined :=
  ⟨rfl, rfl⟩

/-! ### Claim C8: the Authorization header -/

/-- C8: with no overrides the Authorization header is `Basic` plus the base64
of the credential followed by one colon, and decoding plus colon-splitting
recovers the credential with an empty password; but the claim as stated fails
on the code: a caller-supplied headers object that does not touch the
Authorization key still erases it (the trailing `...init` spread replaces the
whole headers record). -/
theorem c8_authorization_header :
    (callSrcRequest getTags "api-key" ⟨[], some [], none⟩ initEmpty).map
        (fun r => r.headers.lookup "Authorization") =
      .ok (some ("Basic " ++ btoa ("api-key" ++ ":"))) ∧
    atob (btoa ("api-key" ++ ":")) = "api-key" ++ ":" ∧
    splitFirstColon (atob (btoa ("api-key" ++ ":"))) = ("api-key", "") ∧
    (callSrcRequest getTags "api-key" ⟨[], some [], none⟩
        ⟨some [("Accept", "text/plain")], none, none⟩).map
        (fun r => r.headers.lookup "Authorization") = .ok none :=
  ⟨rfl, by decide, by decide, rfl⟩

/-! ### Claim C9: the descriptor is never mutated -/

/-- C9: running any sequence of invocations leaves the endpoint descriptor
unchanged, and each invocation computes its request from the original
descriptor alone — no state flows from one call to the next. -/
theorem c9_descriptor_not_mutated (config : EndpointConfig)
    (calls : List (String × CallData × FetchInit)) :
    (runCallsSrc config calls).2 = config ∧
    (runCallsSrc config calls).1 =
      calls.map fun a => callSrcRequest config a.1 a.2.1 a.2.2 := by
  induction calls with
  | nil => exact ⟨rfl, rfl⟩
  | cons a rest ih =>
    refine ⟨?_, ?_⟩
    · show (runCallsSrc config rest).2 = config
      exact ih.1
    · show callSrcRequest config a.1 a.2.1 a.2.2 :: (runCallsSrc config rest).1 = _
      rw [ih.2, List.map_cons]

/-! ### Claim C10: dist refines src -/

/-- C10: the executor of the compiled file src/dist/index.js is extensionally
equal to the executor of src/src/index.ts: same computed request (URL, method,
headers, body — including the TypeError on an absent query) and the same
response interpretation. -/
theorem c10_dist_equals_src (config : EndpointConfig) (apiKey : String)
    (data : CallData) (init : FetchInit) (fullUrl : String) (res : FetchResponse) :
    callDistRequest config apiKey data init = callSrcRequest config apiKey data init ∧
    callDistOutcome config fullUrl res = callSrcOutcome config fullUrl res :=
  ⟨rfl, rfl⟩

/-! ### Claim C7: body handling -/

/-- C7: a GET request carries no body whatever `payload.body` holds (absent a
runtime body override); a non-GET request with a present body carries its
JSON serialization; and the trailing `...init` spread means a caller-supplied
runtime body override wins over the computed one. -/
theorem c7_body_encoding (config : EndpointConfig) (apiKey : String)
    (params : List (String × String)) (q : List (String × Option Prim))
    (b : Option JVal) (init : FetchInit) :
    (config.method = "GET" → init.body = none →
      (callSrcRequest config apiKey ⟨params, some q, b⟩ init).map (fun r => r.body) =
        .ok none) ∧
    (∀ jb, config.method ≠ "GET" → init.body = none → b = some jb →
      (callSrcRequest config apiKey ⟨params, some q, b⟩ init).map (fun r => r.body) =
        .ok (some (jsonStringify jb))) ∧
    (∀ s, init.body = some s →
      (callSrcRequest config apiKey ⟨params, some q, b⟩ init).map (fun r => r.body) =
        .ok (some s)) := by
  refine ⟨?_, ?_, ?_⟩
  · intro hm hb
    simp [callSrcRequest, Except.map, hm, hb, Option.orElse]
  · intro jb hm hb hjb
    subst hjb
    simp [callSrcRequest, Except.map, hm, hb, Option.orElse]
  · intro s hs
    simp [callSrcRequest, Except.map, hs, Option.orElse]

/-- C7, witness: a GET call with a body present sends none; a POST call sends
the serialized body; a runtime override body wins. -/
theorem c7_body_encoding_witness :
    (callSrcRequest getTags "k" ⟨[], some [], some (.str "x")⟩ initEmpty).map
        (fun r => r.body) = .ok none ∧
    (callSrcRequest addOpportunityTags "k" ⟨[("opportunity", "o")], some [],
        some (.str "x")⟩ initEmpty).map (fun r => r.body) =
      .ok (some (jsonStringify (.str "x"))) ∧
    (callSrcRequest getTags "k" ⟨[], some [], none⟩ ⟨none, none, some "override"⟩).map
        (fun r => r.body) = .ok (some "override") :=
  ⟨(c7_body_encoding getTags "k" [] [] (some (.str "x")) initEmpty).1 rfl rfl,
    (c7_body_encoding addOpportunityTags "k" [("opportunity", "o")] []
        (some (.str "x")) initEmpty).2.1 (.str "x") (by decide) rfl rfl,
    (c7_body_encoding getTags "k" [] [] none ⟨none, none, some "override"⟩).2.2
      "override" rfl⟩

/-! ### Claim C1: response interpretation -/

/-- A string occurs within itself. -/
theorem occursB_self (q : Str) : occursB q q = true := by
  cases q with
  | nil => rfl
  | cons c cs =>
    rw [occursB_cons]
    have h := isPrefixOf_append_self (c :: cs) []
    rw [List.append_nil] at h
    simp [h]

/-- C1, counterexample: the TS-source executor rejects a 404 with the message
`HTTP 404: Not Found`, which carries neither the request method nor the full
URL. -/
theorem c1_error_lacks_method_and_url :
    callSrcOutcome getTags (ROOT ++ "/tags") ⟨404, "Not Found", .error "nope"⟩ =
      .failure "HTTP 404: Not Found" ∧
    occursB "GET".data "HTTP 404: Not Found".data = false ∧
    occursB (ROOT ++ "/tags").data "HTTP 404: Not Found".data = false :=
  ⟨rfl, by decide, by decide⟩

/-- C1 (amended): on a status outside 200–299 the TS-source executor fails
with `HTTP <status>: <statusText>` — carrying the numeric status and the
status text but not the method or URL — while the newer build fails with
`<method> <url> HTTP <status>: <statusText>`, carrying all four; on a status
inside 200–299 both return the JSON-parsed response body. -/
theorem c1_response_interpretation (config : EndpointConfig) (fullUrl : String)
    (res : FetchResponse) :
    (resOk res = false →
      callSrcOutcome config fullUrl res =
        .failure ("HTTP " ++ toString res.status ++ ": " ++ res.statusText) ∧
      callPart002Outcome config fullUrl res =
        .failure (config.method ++ " " ++ fullUrl ++ " HTTP " ++
          toString res.status ++ ": " ++ res.statusText) ∧
      occursB (toString res.status).data
        ("HTTP " ++ toString res.status ++ ": " ++ res.statusText).data = true ∧
      occursB res.statusText.data
        ("HTTP " ++ toString res.status ++ ": " ++ res.statusText).data = true ∧
      occursB config.method.data
        (config.method ++ " " ++ fullUrl ++ " HTTP " ++
          toString res.status ++ ": " ++ res.statusText).data = true ∧
      occursB fullUrl.data
        (config.method ++ " " ++ fullUrl ++ " HTTP " ++
          toString res.status ++ ": " ++ res.statusText).data = true ∧
      occursB (toString res.status).data
        (config.method ++ " " ++ fullUrl ++ " HTTP " ++
          toString res.status ++ ": " ++ res.statusText).data = true ∧
      occursB res.statusText.data
        (config.method ++ " " ++ fullUrl ++ " HTTP " ++
          toString res.status ++ ": " ++ res.statusText).data = true) ∧
    (resOk res = true →
      callSrcOutcome config fullUrl res =
        (match res.jsonBody with | .ok v => .success v | .error e => .jsonError e) ∧
      callPart002Outcome config fullUrl res =
        (match res.jsonBody with | .ok v => .success v | .error e => .jsonError e)) := by
  constructor
  · intro hf
    refine ⟨by simp [callSrcOutcome, hf], by simp [callPart002Outcome, hf], ?_, ?_, ?_, ?_, ?_, ?_⟩
    · have he : ("HTTP " ++ toString res.status ++ ": " ++ res.statusText).data =
          "HTTP ".data ++ ((toString res.status).data ++
            (": ".data ++ res.statusText.data)) := by
        simp [String.data_append]
      rw [he]
      exact occursB_append_mid _ _ _
    · have he : ("HTTP " ++ toString res.status ++ ": " ++ res.statusText).data =
          ("HTTP ".data ++ (toString res.status).data ++ ": ".data) ++
            res.statusText.data := by
        simp [String.data_append]
      rw [he]
      exact occursB_append_left _ _ _ (occursB_self _)
    · have he : (config.method ++ " " ++ fullUrl ++ " HTTP " ++
          toString res.status ++ ": " ++ res.statusText).data =
          [] ++ (config.method.data ++ (" ".data ++ fullUrl.data ++ " HTTP ".data ++
            (toString res.status).data ++ ": ".data ++ res.statusText.data)) := by
        simp [String.data_append]
      rw [he]
      exact occursB_append_mid _ _ _
    · have he : (config.method ++ " " ++ fullUrl ++ " HTTP " ++
          toString res.status ++ ": " ++ res.statusText).data =
          (config.method.data ++ " ".data) ++ (fullUrl.data ++ (" HTTP ".data ++
            (toString res.status).data ++ ": ".data ++ res.statusText.data)) := by
        simp [String.data_append]
      rw [he]
      exact occursB_append_mid _ _ _
    · have he : (config.method ++ " " ++ fullUrl ++ " HTTP " ++
          toString res.status ++ ": " ++ res.statusText).data =
          (config.method.data ++ " ".data ++ fullUrl.data ++ " HTTP ".data) ++
            ((toString res.status).data ++ (": ".data ++ res.statusText.data)) := by
        simp [String.data_append]
      rw [he]
      exact occursB_append_mid _ _ _
    · have he : (config.method ++ " " ++ fullUrl ++ " HTTP " ++
          toString res.status ++ ": " ++ res.statusText).data =
          (config.method.data ++ " ".data ++ fullUrl.data ++ " HTTP ".data ++
            (toString res.status).data ++ ": ".data) ++ res.statusText.data := by
        simp [String.data_append]
      rw [he]
      exact occursB_append_left _ _ _ (occursB_self _)
  · intro ht
    exact ⟨by simp [callSrcOutcome, ht], by simp [callPart002Outcome, ht]⟩

/-- C1, witness: a 404 rejects with the two messages; a 200 resolves with the
parsed body. -/
theorem c1_response_interpretation_witness :
    callSrcOutcome getTags (ROOT ++ "/tags") ⟨404, "Not Found", .ok .null⟩ =
      .failure ("HTTP " ++ toString 404 ++ ": " ++ "Not Found") ∧
    callPart002Outcome getTags (ROOT ++ "/tags") ⟨404, "Not Found", .ok .null⟩ =
      .failure ("GET" ++ " " ++ (ROOT ++ "/tags") ++ " HTTP " ++
        toString 404 ++ ": " ++ "Not Found") ∧
    callSrcOutcome getTags (ROOT ++ "/tags") ⟨200, "OK", .ok .null⟩ =
      .success .null := by
  have h404 := c1_response_interpretation getTags (ROOT ++ "/tags")
    ⟨404, "Not Found", .ok .null⟩
  have h200 := c1_response_interpretation getTags (ROOT ++ "/tags")
    ⟨200, "OK", .ok .null⟩
  exact ⟨(h404.1 (by decide)).1, (h404.1 (by decide)).2.1, (h200.2 (by decide)).1⟩

/-! ### Claim C5: query serialization -/

/-- Membership in the serialized query entries. -/
theorem mem_queryEntries {q : List (String × Option Prim)} {kv : String × String} :
    kv ∈ queryEntries q ↔ ∃ k v, kv = (k, Prim.jsString v) ∧ (k, some v) ∈ q := by
  simp only [queryEntries, List.mem_filterMap]
  constructor
  · rintro ⟨⟨k, o⟩, hmem, hf⟩
    cases o with
    | none => cases hf
    | some v =>
      simp only [Option.map_some'] at hf
      exact ⟨k, v, (Option.some.inj hf).symm, hmem⟩
  · rintro ⟨k, v, rfl, hmem⟩
    exact ⟨(k, some v), hmem, rfl⟩

/-- In a record with distinct keys, a key determines its value. -/
theorem keyVal_unique {q : List (String × Option Prim)}
    (h : (q.map Prod.fst).Nodup) {k : String} {x y : Option Prim}
    (hx : (k, x) ∈ q) (hy : (k, y) ∈ q) : x = y := by
  induction q with
  | nil => cases hx
  | cons a tail ih =>
    rw [List.map_cons, List.nodup_cons] at h
    rcases List.mem_cons.mp hx with rfl | hx2
    · rcases List.mem_cons.mp hy with hy1 | hy2
      · exact (congrArg Prod.snd hy1).symm
      · exact absurd (List.mem_map.mpr ⟨(k, y), hy2, rfl⟩) h.1
    · rcases List.mem_cons.mp hy with rfl | hy2
      · exact absurd (List.mem_map.mpr ⟨(k, x), hx2, rfl⟩) h.1
      · exact ih h.2 hx2 hy2

/-- Serialized entries only mention keys of the query record. -/
theorem queryEntries_key_mem {q : List (String × Option Prim)}
    {kv : String × String} (h : kv ∈ queryEntries q) : kv.1 ∈ q.map Prod.fst := by
  obtain ⟨k, v, rfl, hm⟩ := mem_queryEntries.mp h
  exact List.mem_map.mpr ⟨(k, some v), hm, rfl⟩

/-- A present key appears exactly once among the serialized entries. -/
theorem queryEntries_countP {q : List (String × Option Prim)}
    (h : (q.map Prod.fst).Nodup) {k : String} {v : Prim}
    (hm : (k, some v) ∈ q) :
    (queryEntries q).countP (fun kv => kv.1 == k) = 1 := by
  induction q with
  | nil => cases hm
  | cons a tail ih =>
    rw [List.map_cons, List.nodup_cons] at h
    rcases List.mem_cons.mp hm with rfl | hm2
    · rw [show queryEntries ((k, some v) :: tail) =
          (k, Prim.jsString v) :: queryEntries tail from rfl,
        List.countP_cons_of_pos _ _ (by simp)]
      have hz : (queryEntries tail).countP (fun kv => kv.1 == k) = 0 := by
        rw [List.countP_eq_zero]
        intro kv hkv
        simp only [beq_iff_eq]
        intro hkk
        exact h.1 (hkk ▸ queryEntries_key_mem hkv)
      omega
    · have hak : a.1 ≠ k := by
        intro he
        exact h.1 (he ▸ List.mem_map.mpr ⟨(k, some v), hm2, rfl⟩)
      obtain ⟨ak, ao⟩ := a
      cases ao with
      | none =>
        rw [show queryEntries ((ak, (none : Option Prim)) :: tail) =
            queryEntries tail from rfl]
        exact ih h.2 hm2
      | some w =>
        rw [show queryEntries ((ak, some w) :: tail) =
            (ak, Prim.jsString w) :: queryEntries tail from rfl,
          List.countP_cons_of_neg _ _ (by simpa using hak)]
        exact ih h.2 hm2

/-- The join of a nonempty list is at least as long as its head. -/
theorem joinAmp_length_ge (x : String) (xs : List String) :
    x.length ≤ (joinAmp (x :: xs)).length := by
  cases xs with
  | nil => simp [joinAmp]
  | cons y ys =>
    rw [show joinAmp (x :: y :: ys) = x ++ "&" ++ joinAmp (y :: ys) from rfl]
    rw [String.length_append, String.length_append]
    omega

/-- The serialized query string is empty exactly when no entry survives. -/
theorem serializeSearchParams_eq_empty_iff (l : List (String × String)) :
    serializeSearchParams l = "" ↔ l = [] := by
  cases l with
  | nil =>
    simp [serializeSearchParams, joinAmp]
  | cons kv rest =>
    simp only [serializeSearchParams, List.map_cons]
    constructor
    · intro h
      exfalso
      have hlen := congrArg String.length h
      have hge := joinAmp_length_ge (fueEncode kv.1 ++ "=" ++ fueEncode kv.2)
        (rest.map fun kv => fueEncode kv.1 ++ "=" ++ fueEncode kv.2)
      rw [String.length_append, String.length_append] at hge
      have : ("" : String).length = 0 := rfl
      have h1 : ("=" : String).length = 1 := rfl
      omega
    · intro h
      cases h

/-- C5: keys with `null`/absent values never reach the serialized query
string; a key with a present value appears exactly once, carrying the
string form of its value; the query string is the `&`-join of
form-urlencoded `key=value` pairs; it is empty exactly when no entry
survives; and the full URL is the fixed root, the interpolated path, and
`?` plus the query string only when that string is nonempty. -/
theorem c5_query_serialization (config : EndpointConfig) (apiKey : String)
    (params : List (String × String)) (q : List (String × Option Prim))
    (b : Option JVal) (init : FetchInit)
    (hnd : (q.map Prod.fst).Nodup) :
    (∀ k, (k, (none : Option Prim)) ∈ q → ∀ kv ∈ queryEntries q, kv.1 ≠ k) ∧
    (∀ k v, (k, some v) ∈ q →
      (queryEntries q).countP (fun kv => kv.1 == k) = 1 ∧
      (k, Prim.jsString v) ∈ queryEntries q) ∧
    serializeSearchParams (queryEntries q) =
      joinAmp ((queryEntries q).map fun kv => fueEncode kv.1 ++ "=" ++ fueEncode kv.2) ∧
    (serializeSearchParams (queryEntries q) = "" ↔ queryEntries q = []) ∧
    (callSrcRequest config apiKey ⟨params, some q, b⟩ init).map (fun r => r.url) =
      .ok (ROOT ++ interpolate config.path params ++
        (if serializeSearchParams (queryEntries q) = "" then ""
          else "?" ++ serializeSearchParams (queryEntries q))) := by
  refine ⟨?_, ?_, rfl, serializeSearchParams_eq_empty_iff _, rfl⟩
  · intro k hk kv hkv hkk
    obtain ⟨k2, v, he, hm⟩ := mem_queryEntries.mp hkv
    have hk2 : k2 = k := by
      have := congrArg Prod.fst he
      simp at this
      rw [← this, hkk]
    rw [hk2] at hm
    exact Option.noConfusion (keyVal_unique hnd hk hm)
  · intro k v hm
    exact ⟨queryEntries_countP hnd hm, mem_queryEntries.mpr ⟨k, v, rfl, hm⟩⟩

/-- C5, witness: a two-entry query with one `null` value serializes to the
single surviving pair. -/
theorem c5_query_serialization_witness :
    (([("a", some (Prim.str "x")), ("b", (none : Option Prim))].map Prod.fst).Nodup) ∧
    ((∀ k, (k, (none : Option Prim)) ∈
        [("a", some (Prim.str "x")), ("b", (none : Option Prim))] →
        ∀ kv ∈ queryEntries [("a", some (Prim.str "x")), ("b", (none : Option Prim))],
          kv.1 ≠ k) ∧
      (∀ k v, (k, some v) ∈
          [("a", some (Prim.str "x")), ("b", (none : Option Prim))] →
        (queryEntries [("a", some (Prim.str "x")),
            ("b", (none : Option Prim))]).countP (fun kv => kv.1 == k) = 1 ∧
        (k, Prim.jsString v) ∈
          queryEntries [("a", some (Prim.str "x")), ("b", (none : Option Prim))]) ∧
      serializeSearchParams
          (queryEntries [("a", some (Prim.str "x")), ("b", (none : Option Prim))]) =
        joinAmp ((queryEntries [("a", some (Prim.str "x")),
            ("b", (none : Option Prim))]).map
          fun kv => fueEncode kv.1 ++ "=" ++ fueEncode kv.2) ∧
      (serializeSearchParams
          (queryEntries [("a", some (Prim.str "x")), ("b", (none : Option Prim))]) = "" ↔
        queryEntries [("a", some (Prim.str "x")), ("b", (none : Option Prim))] = []) ∧
      (callSrcRequest getTags "k"
          ⟨[], some [("a", some (Prim.str "x")), ("b", (none : Option Prim))], none⟩
          initEmpty).map (fun r => r.url) =
        .ok (ROOT ++ interpolate getTags.path [] ++
          (if serializeSearchParams
              (queryEntries [("a", some (Prim.str "x")),
                ("b", (none : Option Prim))]) = "" then ""
            else "?" ++ serializeSearchParams
              (queryEntries [("a", some (Prim.str "x")),
                ("b", (none : Option Prim))])))) :=
  ⟨by decide, c5_query_serialization getTags "k" []
    [("a", some (Prim.str "x")), ("b", (none : Option Prim))] none initEmpty (by decide)⟩

end LeverJs
